import Mathlib

/-!
Verification of `src/jacoco_report.py` (jacoco-display-console).

The Python program converts a JaCoCo XML coverage report into a
Cobertura-shaped structure and reports coverage for changed files.
This file gives a shallow embedding of the conversion and reporting
logic and proves the frozen claims about it.

Modelling conventions:
* XML elements become Lean structures holding exactly the attributes and
  children the Python code reads; integer-valued attributes are `ℕ`.
* Python float arithmetic is IEEE binary64.  Every double is an exact
  rational, and each arithmetic step rounds its exact rational result to
  the nearest representable double (ties to even significand).  The
  function `floatRound` below implements that rounding on `ℚ`; it is
  faithful for magnitudes below the double overflow threshold `2^1024`
  (larger inputs overflow in Python and are outside the model, as are
  numerators or denominators of at least `2^1100`, where the fuel of the
  embedded logarithm runs out).
* Code that can raise an exception is modelled with `Option`/`Except`:
  `none`/`.error` is a raised exception, e.g. the `ZeroDivisionError`
  of a float division by zero.
* The external collaborators (git, pycobertura, tabulate) are modelled
  as parameters: the per-file coverage lookup of pycobertura is a
  function `String → Except String (ℚ × ℚ)` giving line and branch rate
  or a raised error, exactly as `convert_and_analyze_coverage` consumes it.
-/

set_option maxRecDepth 8000
set_option maxHeartbeats 1000000

namespace JacocoReport

/-! ### IEEE binary64 value model -/

/-- Fueled base-2 logarithm on `ℕ`: `log2F fuel n` is `⌊log₂ n⌋` for
`1 ≤ n < 2 ^ fuel` (and junk otherwise).  Written with explicit fuel so
that the kernel can evaluate it on literals. -/
def log2F : ℕ → ℕ → ℕ
  | 0, _ => 0
  | fuel + 1, n => if n < 2 then 0 else log2F fuel (n / 2) + 1

/-- Base-2 logarithm with enough fuel for every number with fewer than
1100 binary digits, which covers the whole finite double range. -/
def natLog2 (n : ℕ) : ℕ :=
  log2F 1100 n

/-- Floor of the base-2 logarithm of a positive rational: for `q ≥ 1`
it is the logarithm of `⌊q⌋`; for `0 < q < 1` it is determined by the
logarithm of `⌊q⁻¹⌋`, with an exactness test for the power-of-two case. -/
def floorLog2 (q : ℚ) : ℤ :=
  if 1 ≤ q then (natLog2 ⌊q⌋.toNat : ℤ)
  else
    let L : ℕ := natLog2 ⌊q⁻¹⌋.toNat
    if q * 2 ^ L = 1 then -(L : ℤ) else -(L : ℤ) - 1

/-- Round a rational to the nearest integer, ties to the even integer.
This is the rounding applied to the scaled significand of a double. -/
def roundHalfEven (q : ℚ) : ℤ :=
  let f := ⌊q⌋
  if q - (f : ℚ) < 1 / 2 then f
  else if 1 / 2 < q - (f : ℚ) then f + 1
  else if f % 2 = 0 then f else f + 1

/-- Round a positive rational to the nearest IEEE binary64 value:
scale into `[2^52, 2^53)` (clamping the scale at the subnormal exponent
`-1074`), round the scaled significand to the nearest integer with ties
to even, and scale back. -/
def floatRoundPos (q : ℚ) : ℚ :=
  let e : ℤ := max (floorLog2 q - 52) (-1074)
  (roundHalfEven (q * 2 ^ (-e)) : ℚ) * 2 ^ e

/-- Round any rational to the nearest IEEE binary64 value.  This models
the value produced by each Python float operation when applied to the
exact rational result of that operation. -/
def floatRound (q : ℚ) : ℚ :=
  if q = 0 then 0
  else if q < 0 then -(floatRoundPos (-q))
  else floatRoundPos q

/-! ### JaCoCo input data model

Each structure holds exactly what the Python code reads from the
corresponding XML element. -/

/-- A JaCoCo `<counter type=... covered=... missed=...>` element. -/
structure JCounter where
  type : String
  covered : ℕ
  missed : ℕ
deriving DecidableEq, Repr

/-- A JaCoCo `<line nr=... mi=... ci=... mb=... cb=...>` element; the
code reads `nr`, `ci`, `mb` and `cb`. -/
structure JLine where
  nr : ℕ
  ci : ℕ
  mb : ℕ
  cb : ℕ
deriving DecidableEq, Repr

/-- A JaCoCo `<method>` element: the code reads `name`, `desc`, the
`line` attribute (with default `0` when absent, via `attrib.get`) and the
`<counter>` children. -/
structure JMethod where
  name : String
  desc : String
  line : ℕ
  counters : List JCounter
deriving DecidableEq, Repr

/-- A JaCoCo `<sourcefile name=...>` element with its `<line>` children. -/
structure JSourcefile where
  name : String
  lines : List JLine
deriving DecidableEq, Repr

/-- A JaCoCo `<class name=...>` element with its `<method>` and
`<counter>` children. -/
structure JClass where
  name : String
  methods : List JMethod
  counters : List JCounter
deriving DecidableEq, Repr

/-- A JaCoCo `<package name=...>` element with its `<class>`,
`<sourcefile>` and `<counter>` children. -/
structure JPackage where
  name : String
  classes : List JClass
  sourcefiles : List JSourcefile
  counters : List JCounter
deriving DecidableEq, Repr

/-- The JaCoCo `<report>` root: the code reads
`find('sessioninfo').attrib['start']` (milliseconds, an integer), the
`<package>` children and the `<counter>` children. -/
structure JReport where
  sessioninfoStart : ℕ
  packages : List JPackage
  counters : List JCounter
deriving DecidableEq, Repr

/-! ### Cobertura output data model -/

/-- A `<condition>` element emitted under a converted line. -/
structure CCondition where
  number : String
  type : String
  coverage : String
deriving DecidableEq, Repr

/-- A converted Cobertura `<line>` element. -/
structure CLine where
  number : ℕ
  hits : String
  branch : Bool
  condCov : Option String
  conditions : List CCondition
deriving DecidableEq, Repr

/-- The `line-rate`, `branch-rate` and `complexity` attributes written by
`add_counters`; their numeric values as exact rationals. -/
structure CRates where
  line_rate : ℚ
  branch_rate : ℚ
  complexity : ℚ
deriving DecidableEq, Repr

/-- A converted Cobertura `<method>` element. -/
structure CMethod where
  name : String
  signature : String
  rates : CRates
  lines : List CLine
deriving DecidableEq, Repr

/-- A converted Cobertura `<class>` element. -/
structure CClass where
  name : String
  filename : String
  methods : List CMethod
  rates : CRates
  lines : List CLine
deriving DecidableEq, Repr

/-- A converted Cobertura `<package>` element. -/
structure CPackage where
  name : String
  classes : List CClass
  rates : CRates
deriving DecidableEq, Repr

/-- The converted Cobertura `<coverage>` root. -/
structure CCoverage where
  timestamp : ℚ
  sources : List String
  packages : List CPackage
  rates : CRates
deriving DecidableEq, Repr

/-! ### String helpers used by the Python code -/

/-- Model of `os.path.basename`: the characters after the last slash. -/
def basename (s : String) : String :=
  ⟨s.data.foldl (fun acc c => if c = '/' then [] else acc ++ [c]) []⟩

/-- Fueled core of Python `str.replace`: replace non-overlapping
occurrences of `pat` left to right.  The fuel is at least the length of
the string, so it never runs out for a nonempty pattern. -/
def replFuel (pat rep : List Char) : ℕ → List Char → List Char
  | 0, s => s
  | _ + 1, [] => []
  | fuel + 1, c :: rest =>
    if pat.isPrefixOf (c :: rest) then
      rep ++ replFuel pat rep fuel (List.drop pat.length (c :: rest))
    else
      c :: replFuel pat rep fuel rest

/-- Model of Python `s.replace(pat, rep)` for a nonempty pattern. -/
def pyReplace (s pat rep : String) : String :=
  ⟨replFuel pat.data rep.data (s.data.length + 1) s.data⟩

/-- Model of `os.path.join(a, b)` for the two-argument uses in the code. -/
def pathJoin (a b : String) : String :=
  if b.data.head? = some '/' then b
  else if a.data = [] then b
  else if a.data.getLast? = some '/' then a ++ b
  else a ++ "/" ++ b

/-! ### Counter aggregation (`fraction`, `sum`, `counter`, `add_counters`) -/

/-- Model of `fraction(covered, missed) = covered / (covered + missed)`
on doubles: the addition and the division each round, and a zero divisor
raises `ZeroDivisionError`, modelled as `none`. -/
def fraction (covered missed : ℚ) : Option ℚ :=
  let s := floatRound (covered + missed)
  if s = 0 then none else some (floatRound (covered / s))

/-- Model of `sum(covered, missed) = covered + missed` on doubles. -/
def sum (covered missed : ℚ) : Option ℚ :=
  some (floatRound (covered + missed))

/-- Model of `counter(source, type, operation)`: find the first
`<counter>` child of the requested type; if present, convert its
`covered` and `missed` attributes to doubles and apply the operation
(default operation in Python is `fraction`); if absent, return the
string `0.0`, i.e. the value `0`. -/
def counter (source : List JCounter) (type : String)
    (operation : ℚ → ℚ → Option ℚ) : Option ℚ :=
  match source.find? (fun ct => ct.type == type) with
  | some c => operation (floatRound (c.covered : ℚ)) (floatRound (c.missed : ℚ))
  | none => some 0

/-- Model of `add_counters(source, target)`: computes the `line-rate`,
`branch-rate` and `complexity` attributes in that order; an exception in
any of them aborts the conversion. -/
def add_counters (source : List JCounter) : Option CRates := do
  let lr ← counter source "LINE" fraction
  let br ← counter source "BRANCH" fraction
  let cx ← counter source "COMPLEXITY" sum
  pure ⟨lr, br, cx⟩

/-! ### Line lookup and method line attribution -/

/-- Model of `find_lines(j_package, filename)`: concatenate the `<line>`
children of every `<sourcefile>` whose name equals the basename of the
filename, in document order. -/
def find_lines (j_package : JPackage) (filename : String) : List JLine :=
  (j_package.sourcefiles.filter (fun sf => sf.name == basename filename)).flatMap
    (fun sf => sf.lines)

/-- Model of `line_is_after(jm, start_line)`. -/
def line_is_after (jm : JMethod) (start_line : ℕ) : Bool :=
  decide (start_line < jm.line)

/-- Model of `min(l) if len(l) else dflt`: the Python builtin `min` of a
nonempty list folds `min` from the first element; the default is used
for the empty list. -/
def pyMin (l : List ℕ) (dflt : ℕ) : ℕ :=
  match l with
  | [] => dflt
  | x :: xs => xs.foldl min x

/-- Model of `method_lines(jmethod, jmethods, jlines)`: the lines whose
number lies in `[start_line, end_line)` where `end_line` is the minimum
start line among methods strictly after this one, or the sentinel
`99999999` when there is none. -/
def method_lines (jmethod : JMethod) (jmethods : List JMethod)
    (jlines : List JLine) : List JLine :=
  let start_line := jmethod.line
  let larger :=
    (jmethods.filter (fun jm => line_is_after jm start_line)).map
      (fun jm => jm.line)
  let end_line : ℕ := pyMin larger 99999999
  jlines.filter (fun jl => decide (start_line ≤ jl.nr) && decide (jl.nr < end_line))

/-! ### Line conversion (`convert_lines`) -/

/-- The branch percentage computed by `convert_lines`:
`int(100 * (float(cb) / (float(cb) + float(mb))))` with every float
operation rounding to binary64 and `int` truncating (toward zero, which
is the floor for this nonnegative value). -/
def pct (cb mb : ℕ) : ℕ :=
  let fcb := floatRound (cb : ℚ)
  let fsum := floatRound (fcb + floatRound (mb : ℚ))
  (⌊floatRound (100 * floatRound (fcb / fsum))⌋).toNat

/-- Conversion of a single JaCoCo `<line>` element into a Cobertura
`<line>` element, following the body of the loop in `convert_lines`. -/
def convert_line (jl : JLine) : CLine :=
  let hits : String := if 0 < jl.ci then "1" else "0"
  if 0 < jl.mb + jl.cb then
    let percentage : String := Nat.repr (pct jl.cb jl.mb) ++ "%"
    { number := jl.nr
      hits := hits
      branch := true
      condCov := some (percentage ++ " (" ++ Nat.repr jl.cb ++ "/" ++
        Nat.repr (jl.cb + jl.mb) ++ ")")
      conditions := [⟨"0", "jump", percentage⟩] }
  else
    { number := jl.nr
      hits := hits
      branch := false
      condCov := none
      conditions := [] }

/-- Model of `convert_lines(j_lines, into)`: one converted line per
input line, in order, collected under the `<lines>` element. -/
def convert_lines (j_lines : List JLine) : List CLine :=
  j_lines.map convert_line

/-! ### Structural conversion (`guess_filename`, `convert_method`,
`convert_class`, `convert_package`, `convert_root`) -/

/-- Model of `guess_filename(path_to_class)`: the prefix of the class
path before the first dollar sign, with the fixed extension appended
(the regex `([^$]*)` matches exactly that prefix). -/
def guess_filename (path_to_class : String) : String :=
  (⟨path_to_class.data.takeWhile (fun c => c != '$')⟩ : String) ++ ".java"

/-- Model of `convert_method(j_method, j_lines)`. -/
def convert_method (j_method : JMethod) (j_lines : List JLine) :
    Option CMethod := do
  let rates ← add_counters j_method.counters
  pure ⟨j_method.name, j_method.desc, rates, convert_lines j_lines⟩

/-- Model of `convert_class(j_class, j_package)`: dotted name, guessed
filename, all lines of that filename in the package, one converted
method per `<method>` child (with its attributed line subset), the
class-level rates and the class-level full line list. -/
def convert_class (j_class : JClass) (j_package : JPackage) :
    Option CClass := do
  let filename := guess_filename j_class.name
  let all_j_lines := find_lines j_package filename
  let methods ← j_class.methods.mapM
    (fun j_method =>
      convert_method j_method (method_lines j_method j_class.methods all_j_lines))
  let rates ← add_counters j_class.counters
  pure ⟨pyReplace j_class.name "/" ".", filename, methods, rates,
    convert_lines all_j_lines⟩

/-- Model of `convert_package(j_package)`. -/
def convert_package (j_package : JPackage) : Option CPackage := do
  let classes ← j_package.classes.mapM (fun c => convert_class c j_package)
  let rates ← add_counters j_package.counters
  pure ⟨pyReplace j_package.name "/" ".", classes, rates⟩

/-- Model of `convert_root(source, target, source_roots)`: the timestamp
is `int(start) / 1000`, a Python 3 true division producing a double;
then the source roots verbatim, the converted packages and the root
rates. -/
def convert_root (source : JReport) (source_roots : List String) :
    Option CCoverage := do
  let timestamp := floatRound ((source.sessioninfoStart : ℚ) / 1000)
  let packages ← source.packages.mapM convert_package
  let rates ← add_counters source.counters
  pure ⟨timestamp, source_roots, packages, rates⟩

/-! ### Coverage reporting (`convert_and_analyze_coverage`,
`display_coverage_results`) -/

/-- One row of coverage data built for a changed file, mirroring the
dict with keys `file`, `line_rate`, `branch_rate`, `coverage_link`. -/
structure FileCoverage where
  file : String
  line_rate : ℚ
  branch_rate : ℚ
  coverage_link : String
deriving DecidableEq, Repr

/-- The source-root matching of `convert_and_analyze_coverage`: scan the
configured roots in order, take the first whose string is a prefix of
the changed file path (a plain string prefix, regardless of path
component boundaries), and strip the root and then all leading slashes.
`none` means no root matched. -/
def relative_path_of (source_roots : List String) (file_path : String) :
    Option String :=
  (source_roots.find? (fun root => root.data.isPrefixOf file_path.data)).map
    (fun root => ⟨(file_path.data.drop root.data.length).dropWhile (fun c => c = '/')⟩)

/-- The per-file loop of `convert_and_analyze_coverage`: for each
changed file, compute the source-root-relative path (skipping the file
when no root matches or the relative path is empty, with no warning),
then query the coverage lookup; a successful lookup appends a row, a
raised exception prints a warning line to stderr and skips the file.
Returns the rows and the stderr warnings, both in encounter order. -/
def process_files (source_roots : List String)
    (lookup : String → Except String (ℚ × ℚ)) (jacoco_html_dir : String) :
    List String → List FileCoverage × List String
  | [] => ([], [])
  | file_path :: rest =>
    let r := process_files source_roots lookup jacoco_html_dir rest
    match relative_path_of source_roots file_path with
    | none => r
    | some rel =>
      if rel = "" then r
      else
        match lookup rel with
        | .ok p =>
          (⟨file_path, p.1, p.2,
            pathJoin jacoco_html_dir (pyReplace rel ".java" ".html")⟩ :: r.1, r.2)
        | .error msg =>
          (r.1, ("Warning: Could not get coverage for " ++ file_path ++ ": " ++ msg) :: r.2)

/-- The threshold filter of `display_coverage_results`: the files whose
line rate or branch rate, times 100, is strictly below the threshold.
The multiplication by 100 is a Python float multiplication, so its
exact result is rounded to binary64 before the comparison. -/
def low_coverage (coverage_data : List FileCoverage) (threshold : ℚ) :
    List FileCoverage :=
  coverage_data.filter
    (fun d => decide (floatRound (d.line_rate * 100) < threshold) ||
      decide (floatRound (d.branch_rate * 100) < threshold))

/-- The content of the warning block printed by
`display_coverage_results`: for each low-coverage file, its name and
both rates. -/
def warning_entries (coverage_data : List FileCoverage) (threshold : ℚ) :
    List (String × ℚ × ℚ) :=
  (low_coverage coverage_data threshold).map
    (fun d => (d.file, d.line_rate, d.branch_rate))

/-! ### Basic properties of the binary64 rounding model -/

/-- Unconditional unfolding equation for `log2F`, convenient for both
rewriting and induction. -/
lemma log2F_eq (fuel n : ℕ) :
    log2F fuel n =
      if fuel = 0 then 0
      else if n < 2 then 0 else log2F (fuel - 1) (n / 2) + 1 := by
  cases fuel <;> simp [log2F]

/-- With enough fuel, `log2F` brackets its argument between consecutive
powers of two. -/
lemma log2F_bounds (fuel : ℕ) : ∀ n : ℕ, 1 ≤ n → n < 2 ^ fuel →
    2 ^ log2F fuel n ≤ n ∧ n < 2 ^ (log2F fuel n + 1) := by
  induction fuel with
  | zero =>
    intro n h1 h2
    simp only [pow_zero] at h2
    omega
  | succ fuel ih =>
    intro n h1 h2
    rw [log2F]
    by_cases hn : n < 2
    · simp only [if_pos hn]
      constructor
      · simpa using h1
      · simpa using hn
    · simp only [if_neg hn]
      have hdiv1 : 1 ≤ n / 2 := by omega
      have hdiv2 : n / 2 < 2 ^ fuel := by
        have := Nat.div_add_mod n 2
        have hlt : n < 2 ^ fuel * 2 := by
          calc n < 2 ^ (fuel + 1) := h2
          _ = 2 ^ fuel * 2 := by ring
        omega
      obtain ⟨hlo, hhi⟩ := ih (n / 2) hdiv1 hdiv2
      constructor
      · calc 2 ^ (log2F fuel (n / 2) + 1) = 2 ^ log2F fuel (n / 2) * 2 := by ring
        _ ≤ n / 2 * 2 := by omega
        _ ≤ n := by omega
      · have h2n : n / 2 + 1 ≤ 2 ^ (log2F fuel (n / 2) + 1) := hhi
        calc n < (n / 2 + 1) * 2 := by omega
        _ ≤ 2 ^ (log2F fuel (n / 2) + 1) * 2 := by omega
        _ = 2 ^ (log2F fuel (n / 2) + 1 + 1) := by ring

/-- `natLog2` brackets every positive number below its fuel bound. -/
lemma natLog2_bounds (n : ℕ) (h1 : 1 ≤ n) (h2 : n < 2 ^ 1100) :
    2 ^ natLog2 n ≤ n ∧ n < 2 ^ (natLog2 n + 1) :=
  log2F_bounds 1100 n h1 h2

/-- On a positive natural number, `floorLog2` is `natLog2`. -/
lemma floorLog2_natCast (n : ℕ) (h1 : 1 ≤ n) : floorLog2 (n : ℚ) = natLog2 n := by
  rw [floorLog2]
  have hq : (1 : ℚ) ≤ (n : ℚ) := by exact_mod_cast h1
  rw [if_pos hq, Int.floor_natCast, Int.toNat_natCast]

/-- Rounding an integer to the nearest integer is the identity. -/
lemma roundHalfEven_natCast (m : ℕ) : roundHalfEven (m : ℚ) = m := by
  rw [roundHalfEven]
  simp [Int.floor_natCast]

/-- Every natural number below `2 ^ 53` is exactly representable as a
double: `floatRound` is the identity on it. -/
lemma floatRound_natCast (n : ℕ) (h : n < 2 ^ 53) : floatRound (n : ℚ) = n := by
  rcases Nat.eq_zero_or_pos n with h0 | h1
  · subst h0
    simp [floatRound]
  · have hne : ¬((n : ℚ) = 0) := by
      exact_mod_cast Nat.pos_iff_ne_zero.mp h1
    have hnlt : ¬((n : ℚ) < 0) := by
      push_neg
      exact Nat.cast_nonneg n
    rw [floatRound, if_neg hne, if_neg hnlt]
    simp only [floatRoundPos]
    rw [floorLog2_natCast n h1]
    have hbig : n < 2 ^ 1100 := lt_trans h (by norm_num)
    obtain ⟨hlo, hhi⟩ := natLog2_bounds n h1 hbig
    have hL : natLog2 n ≤ 52 := by
      by_contra hcon
      push_neg at hcon
      have : 2 ^ 53 ≤ 2 ^ natLog2 n := Nat.pow_le_pow_right (by norm_num) hcon
      omega
    have hmax : max ((natLog2 n : ℤ) - 52) (-1074) = (natLog2 n : ℤ) - 52 :=
      max_eq_left (by omega)
    rw [hmax]
    have ht : -((natLog2 n : ℤ) - 52) = ((52 - natLog2 n : ℕ) : ℤ) := by omega
    rw [ht, zpow_natCast]
    have hcast : (n : ℚ) * 2 ^ (52 - natLog2 n) =
        ((n * 2 ^ (52 - natLog2 n) : ℕ) : ℚ) := by push_cast; ring
    rw [hcast, roundHalfEven_natCast]
    push_cast
    rw [mul_assoc, ← zpow_natCast (2 : ℚ) (52 - natLog2 n), ← zpow_add₀ (two_ne_zero)]
    have hz : ((52 - natLog2 n : ℕ) : ℤ) + ((natLog2 n : ℤ) - 52) = 0 := by omega
    rw [hz, zpow_zero, mul_one]

/-! ### Concrete binary64 evaluations used by the claims -/

lemma floatRound_29_50 : floatRound ((29:ℚ)/50) = 5224175567749775 / 9007199254740992 := by
  rw [floatRound, if_neg (by norm_num), if_neg (by norm_num)]
  have hk : floorLog2 ((29:ℚ)/50) = -1 := by
    rw [floorLog2]
    norm_num
    rw [show natLog2 1 = 0 from by decide]
    norm_num
  simp only [floatRoundPos, hk]
  rw [show max (-1 - 52 : ℤ) (-1074) = -53 by norm_num]
  rw [show ((29:ℚ)/50) * 2 ^ (-(-53) : ℤ) = 130604389193744384/25 by norm_num]
  rw [show roundHalfEven ((130604389193744384:ℚ)/25) = 5224175567749775 from by
    rw [roundHalfEven]
    rw [show ⌊(130604389193744384:ℚ)/25⌋ = 5224175567749775 by norm_num]
    norm_num]
  norm_num

lemma floatRound_5800 : floatRound ((130604389193744375:ℚ)/2251799813685248) =
    8162774324609023 / 140737488355328 := by
  rw [floatRound, if_neg (by norm_num), if_neg (by norm_num)]
  have hk : floorLog2 ((130604389193744375:ℚ)/2251799813685248) = 5 := by
    rw [floorLog2]
    rw [if_pos (by norm_num)]
    rw [show ⌊(130604389193744375:ℚ)/2251799813685248⌋ = 57 by norm_num]
    rw [show (Int.toNat 57) = 57 from rfl]
    rw [show natLog2 57 = 5 from by decide]
    norm_num
  simp only [floatRoundPos, hk]
  rw [show max (5 - 52 : ℤ) (-1074) = -47 by norm_num]
  rw [show ((130604389193744375:ℚ)/2251799813685248) * 2 ^ (-(-47) : ℤ) =
    130604389193744375/16 by norm_num]
  rw [show roundHalfEven ((130604389193744375:ℚ)/16) = 8162774324609023 from by
    rw [roundHalfEven]
    rw [show ⌊(130604389193744375:ℚ)/16⌋ = 8162774324609023 by norm_num]
    norm_num]
  norm_num

lemma floatRound_third : floatRound ((1:ℚ)/3) = 6004799503160661 / 18014398509481984 := by
  rw [floatRound, if_neg (by norm_num), if_neg (by norm_num)]
  have hk : floorLog2 ((1:ℚ)/3) = -2 := by
    rw [floorLog2]
    norm_num
    rw [show (Int.toNat 3) = 3 from rfl]
    rw [show natLog2 3 = 1 from by decide]
    norm_num
  simp only [floatRoundPos, hk]
  rw [show max (-2 - 52 : ℤ) (-1074) = -54 by norm_num]
  rw [show ((1:ℚ)/3) * 2 ^ (-(-54) : ℤ) = 18014398509481984/3 by norm_num]
  rw [show roundHalfEven ((18014398509481984:ℚ)/3) = 6004799503160661 from by
    rw [roundHalfEven]
    rw [show ⌊(18014398509481984:ℚ)/3⌋ = 6004799503160661 by norm_num]
    norm_num]
  norm_num

lemma floatRound_3_4 : floatRound ((3:ℚ)/4) = 3/4 := by
  rw [floatRound, if_neg (by norm_num), if_neg (by norm_num)]
  have hk : floorLog2 ((3:ℚ)/4) = -1 := by
    rw [floorLog2]
    norm_num
    rw [show natLog2 1 = 0 from by decide]
    norm_num
  simp only [floatRoundPos, hk]
  rw [show max (-1 - 52 : ℤ) (-1074) = -53 by norm_num]
  rw [show ((3:ℚ)/4) * 2 ^ (-(-53) : ℤ) = 6755399441055744 by norm_num]
  rw [show roundHalfEven ((6755399441055744:ℚ)) = 6755399441055744 from by
    rw [roundHalfEven]
    rw [show ⌊(6755399441055744:ℚ)⌋ = 6755399441055744 by norm_num]
    norm_num]
  norm_num

lemma floatRound_3_2 : floatRound ((3:ℚ)/2) = 3/2 := by
  rw [floatRound, if_neg (by norm_num), if_neg (by norm_num)]
  have hk : floorLog2 ((3:ℚ)/2) = 0 := by
    rw [floorLog2]
    rw [if_pos (by norm_num)]
    rw [show ⌊(3:ℚ)/2⌋ = 1 by norm_num]
    rw [show (Int.toNat 1) = 1 from rfl]
    rw [show natLog2 1 = 0 from by decide]
    norm_num
  simp only [floatRoundPos, hk]
  rw [show max (0 - 52 : ℤ) (-1074) = -52 by norm_num]
  rw [show ((3:ℚ)/2) * 2 ^ (-(-52) : ℤ) = 6755399441055744 by norm_num]
  rw [show roundHalfEven ((6755399441055744:ℚ)) = 6755399441055744 from by
    rw [roundHalfEven]
    rw [show ⌊(6755399441055744:ℚ)⌋ = 6755399441055744 by norm_num]
    norm_num]
  norm_num

lemma pct_29_21 : pct 29 21 = 57 := by
  simp only [pct]
  rw [show ((29:ℕ):ℚ) = (29:ℚ) by norm_num, show ((21:ℕ):ℚ) = (21:ℚ) by norm_num]
  rw [show floatRound (29:ℚ) = 29 from by exact_mod_cast floatRound_natCast 29 (by norm_num)]
  rw [show floatRound (21:ℚ) = 21 from by exact_mod_cast floatRound_natCast 21 (by norm_num)]
  rw [show ((29:ℚ) + 21) = 50 by norm_num]
  rw [show floatRound (50:ℚ) = 50 from by exact_mod_cast floatRound_natCast 50 (by norm_num)]
  rw [show ((29:ℚ) / 50) = 29/50 from rfl, floatRound_29_50]
  rw [show (100:ℚ) * (5224175567749775 / 9007199254740992) =
    130604389193744375/2251799813685248 by norm_num]
  rw [floatRound_5800]
  rw [show ⌊(8162774324609023:ℚ)/140737488355328⌋ = 57 by norm_num]
  rfl

lemma pct_3_1 : pct 3 1 = 75 := by
  simp only [pct]
  rw [show ((3:ℕ):ℚ) = (3:ℚ) by norm_num, show ((1:ℕ):ℚ) = (1:ℚ) by norm_num]
  rw [show floatRound (3:ℚ) = 3 from by exact_mod_cast floatRound_natCast 3 (by norm_num)]
  rw [show floatRound (1:ℚ) = 1 from by exact_mod_cast floatRound_natCast 1 (by norm_num)]
  rw [show ((3:ℚ) + 1) = 4 by norm_num]
  rw [show floatRound (4:ℚ) = 4 from by exact_mod_cast floatRound_natCast 4 (by norm_num)]
  rw [show ((3:ℚ) / 4) = 3/4 from rfl, floatRound_3_4]
  rw [show (100:ℚ) * (3/4) = 75 by norm_num]
  rw [show floatRound (75:ℚ) = 75 from by exact_mod_cast floatRound_natCast 75 (by norm_num)]
  rw [show ⌊(75:ℚ)⌋ = 75 by norm_num]
  rfl

/-! ### Structural helper lemmas -/

lemma lt_foldl_min (xs : List ℕ) : ∀ (x y : ℕ), (y < xs.foldl min x ↔ y < x ∧ ∀ z ∈ xs, y < z) := by
  induction xs with
  | nil => intro x y; simp
  | cons z zs ih =>
    intro x y
    simp only [List.foldl_cons, ih, lt_min_iff, List.mem_cons]
    constructor
    · rintro ⟨⟨h1, h2⟩, h3⟩
      exact ⟨h1, fun w hw => hw.elim (fun e => e ▸ h2) (h3 w)⟩
    · rintro ⟨h1, h2⟩
      exact ⟨⟨h1, h2 z (Or.inl rfl)⟩, fun w hw => h2 w (Or.inr hw)⟩

lemma lt_pyMin (l : List ℕ) (dflt y : ℕ) :
    y < pyMin l dflt ↔ (l = [] → y < dflt) ∧ ∀ z ∈ l, y < z := by
  cases l with
  | nil => simp [pyMin]
  | cons x xs =>
    rw [pyMin, lt_foldl_min]
    simp [List.mem_cons]

/-- Membership characterization of `method_lines`: a line is attributed
to a method exactly when it lies in the class line list, at or after the
method start, before every later method start, and below the sentinel
`99999999` when no later method exists. -/
lemma mem_method_lines (m : JMethod) (ms : List JMethod) (ls : List JLine) (l : JLine) :
    l ∈ method_lines m ms ls ↔
      l ∈ ls ∧ m.line ≤ l.nr ∧
      (∀ jm ∈ ms, m.line < jm.line → l.nr < jm.line) ∧
      ((∀ jm ∈ ms, jm.line ≤ m.line) → l.nr < 99999999) := by
  simp only [method_lines, List.mem_filter, Bool.and_eq_true, decide_eq_true_eq]
  have hmem_larger : ∀ z, z ∈ (ms.filter (fun jm => line_is_after jm m.line)).map
      (fun jm => jm.line) ↔ ∃ jm ∈ ms, m.line < jm.line ∧ jm.line = z := by
    intro z
    simp [List.mem_map, List.mem_filter, line_is_after]
    tauto
  have hempty : (ms.filter (fun jm => line_is_after jm m.line)).map
      (fun jm => jm.line) = [] ↔ ∀ jm ∈ ms, ¬ m.line < jm.line := by
    simp [List.map_eq_nil_iff, List.filter_eq_nil_iff, line_is_after]
  constructor
  · rintro ⟨hmem, hge, hlt⟩
    rw [lt_pyMin] at hlt
    refine ⟨hmem, hge, ?_, ?_⟩
    · intro jm hjm hgt
      exact hlt.2 _ ((hmem_larger _).mpr ⟨jm, hjm, hgt, rfl⟩)
    · intro hall
      exact hlt.1 (hempty.mpr (fun jm hjm hl2 => absurd hl2 (not_lt.mpr (hall jm hjm))))
  · rintro ⟨hmem, hge, hall, hsent⟩
    refine ⟨hmem, hge, ?_⟩
    rw [lt_pyMin]
    constructor
    · intro hnil
      exact hsent (fun jm hjm => le_of_not_lt (hempty.mp hnil jm hjm))
    · intro z hz
      obtain ⟨jm, hjm, hgt, rfl⟩ := (hmem_larger z).mp hz
      exact hall jm hjm hgt

/-- The converted line always carries the source line number. -/
lemma convert_line_number (jl : JLine) : (convert_line jl).number = jl.nr := by
  rw [convert_line]
  split <;> rfl

/-- `process_files` distributes over list append, componentwise. -/
lemma process_files_append (roots : List String) (lookup : String → Except String (ℚ × ℚ))
    (dir : String) (xs ys : List String) :
    process_files roots lookup dir (xs ++ ys) =
      ((process_files roots lookup dir xs).1 ++ (process_files roots lookup dir ys).1,
       (process_files roots lookup dir xs).2 ++ (process_files roots lookup dir ys).2) := by
  induction xs with
  | nil => simp [process_files]
  | cons fp rest ih =>
    rcases h : relative_path_of roots fp with _ | rel
    · simp [process_files, h, ih]
    · by_cases hrel : rel = ""
      · simp [process_files, h, hrel, ih]
      · rcases hl : lookup rel with msg | p
        · simp [process_files, h, hrel, hl, ih]
        · simp [process_files, h, hrel, hl, ih]

/-! ### Claims C1 to C4 -/

/-- C1, counterexample: a present LINE counter with covered=0, missed=0
makes the rate operation raise `ZeroDivisionError` (modelled `none`); in
particular it does not return the rate 1.0. -/
theorem c1_counterexample :
    counter [⟨"LINE", 0, 0⟩] "LINE" fraction = none ∧
    counter [⟨"LINE", 0, 0⟩] "LINE" fraction ≠ some 1 := by
  have hfind : List.find? (fun ct => ct.type == "LINE") [(⟨"LINE", 0, 0⟩ : JCounter)] =
      some ⟨"LINE", 0, 0⟩ := by decide
  have h : counter [⟨"LINE", 0, 0⟩] "LINE" fraction = none := by
    simp only [counter, hfind]
    norm_num [fraction, floatRound]
  exact ⟨h, by rw [h]; simp⟩

/-- C1, amended: for every counter list whose first counter of the
requested type has covered=0 and missed=0, the rate operation
`counter _ _ fraction` fails with a float division by zero (`none`),
rather than returning 1.0. -/
theorem c1_theorem : ∀ (cs : List JCounter) (t : String) (c0 : JCounter),
    cs.find? (fun ct => ct.type == t) = some c0 → c0.covered = 0 → c0.missed = 0 →
    counter cs t fraction = none := by
  intro cs t c0 hfind hc hm
  simp only [counter, hfind, hc, hm]
  norm_num [fraction, floatRound]

/-- C1, witness. -/
theorem c1_witness : counter [⟨"BRANCH", 0, 0⟩] "BRANCH" fraction = none :=
  c1_theorem [⟨"BRANCH", 0, 0⟩] "BRANCH" ⟨"BRANCH", 0, 0⟩ (by decide) rfl rfl

/-- C2, counterexample: a present LINE counter with covered=1, missed=2
does not make the rate operation return exactly 1/3; the returned value
is the binary64 rounding of 1/3, which differs from 1/3. -/
theorem c2_counterexample :
    counter [⟨"LINE", 1, 2⟩] "LINE" fraction ≠ some ((1 : ℚ) / 3) := by
  have hfind : List.find? (fun ct => ct.type == "LINE") [(⟨"LINE", 1, 2⟩ : JCounter)] =
      some ⟨"LINE", 1, 2⟩ := by decide
  simp only [counter, hfind]
  rw [show (((⟨"LINE", 1, 2⟩ : JCounter).covered : ℚ)) = 1 by norm_num]
  rw [show (((⟨"LINE", 1, 2⟩ : JCounter).missed : ℚ)) = 2 by norm_num]
  rw [show floatRound (1 : ℚ) = 1 from by exact_mod_cast floatRound_natCast 1 (by norm_num)]
  rw [show floatRound (2 : ℚ) = 2 from by exact_mod_cast floatRound_natCast 2 (by norm_num)]
  simp only [fraction]
  rw [show ((1 : ℚ) + 2) = 3 by norm_num]
  rw [show floatRound (3 : ℚ) = 3 from by exact_mod_cast floatRound_natCast 3 (by norm_num)]
  rw [if_neg (by norm_num)]
  rw [floatRound_third]
  norm_num

/-- C2, amended: the rate operation returns the binary64 rounding of
c/(c+m) when a counter of the requested type is present with total
c+m>0 (exactly c/(c+m) only when that quotient is representable), 0.0
when no counter of the requested type is present; the complexity
operation returns covered+missed for a present COMPLEXITY counter and
0.0 when absent. -/
theorem c2_theorem :
    (∀ (cs : List JCounter) (t : String) (c0 : JCounter),
      cs.find? (fun ct => ct.type == t) = some c0 →
      0 < c0.covered + c0.missed → c0.covered + c0.missed < 2 ^ 53 →
      counter cs t fraction =
        some (floatRound ((c0.covered : ℚ) / ((c0.covered : ℚ) + (c0.missed : ℚ))))) ∧
    (∀ (cs : List JCounter) (t : String),
      cs.find? (fun ct => ct.type == t) = none → counter cs t fraction = some 0) ∧
    (∀ (cs : List JCounter) (c0 : JCounter),
      cs.find? (fun ct => ct.type == "COMPLEXITY") = some c0 →
      c0.covered + c0.missed < 2 ^ 53 →
      counter cs "COMPLEXITY" sum = some ((c0.covered : ℚ) + (c0.missed : ℚ))) ∧
    (∀ cs : List JCounter,
      cs.find? (fun ct => ct.type == "COMPLEXITY") = none →
      counter cs "COMPLEXITY" sum = some 0) := by
  have hsum : ∀ (a b : ℕ), a + b < 2 ^ 53 →
      floatRound ((a : ℚ) + (b : ℚ)) = (a : ℚ) + (b : ℚ) := by
    intro a b hab
    have h := floatRound_natCast (a + b) hab
    push_cast at h
    exact h
  have hcov : ∀ (a b : ℕ), a + b < 2 ^ 53 → floatRound ((a : ℚ)) = (a : ℚ) :=
    fun a b hab => floatRound_natCast a (by omega)
  refine ⟨?_, ?_, ?_, ?_⟩
  · intro cs t c0 hfind hpos hlt
    simp only [counter, hfind, fraction]
    rw [hcov c0.covered c0.missed hlt, hcov c0.missed c0.covered (by omega),
      hsum c0.covered c0.missed hlt]
    have hne : ((c0.covered : ℚ) + (c0.missed : ℚ)) ≠ 0 := by
      have : ((c0.covered + c0.missed : ℕ) : ℚ) ≠ 0 := by
        exact_mod_cast Nat.pos_iff_ne_zero.mp hpos
      push_cast at this
      exact this
    rw [if_neg hne]
  · intro cs t hfind
    simp only [counter, hfind]
  · intro cs c0 hfind hlt
    simp only [counter, hfind, sum]
    rw [hcov c0.covered c0.missed hlt, hcov c0.missed c0.covered (by omega),
      hsum c0.covered c0.missed hlt]
  · intro cs hfind
    simp only [counter, hfind]

/-- C2, witness. -/
theorem c2_witness :
    counter [⟨"LINE", 3, 1⟩] "LINE" fraction =
      some (floatRound (((3 : ℕ) : ℚ) / (((3 : ℕ) : ℚ) + ((1 : ℕ) : ℚ)))) ∧
    counter [] "LINE" fraction = some 0 ∧
    counter [⟨"COMPLEXITY", 2, 5⟩] "COMPLEXITY" sum = some (((2 : ℕ) : ℚ) + ((5 : ℕ) : ℚ)) ∧
    counter [] "COMPLEXITY" sum = some 0 :=
  ⟨c2_theorem.1 [⟨"LINE", 3, 1⟩] "LINE" ⟨"LINE", 3, 1⟩ (by decide) (by norm_num) (by norm_num),
   c2_theorem.2.1 [] "LINE" rfl,
   c2_theorem.2.2.1 [⟨"COMPLEXITY", 2, 5⟩] ⟨"COMPLEXITY", 2, 5⟩ (by decide) (by norm_num),
   c2_theorem.2.2.2 [] rfl⟩

/-- C3, counterexample: for a method at start line 40 with no later
method, the claim says every line with number at least 40 is attributed;
but a line numbered 99999999 is not attributed, because the code uses
the sentinel end line 99999999 with a strict comparison rather than an
unbounded range. -/
theorem c3_counterexample :
    method_lines ⟨"m", "()V", 40, []⟩ [⟨"m", "()V", 40, []⟩] [⟨99999999, 0, 0, 0⟩] = [] := by
  decide

/-- C3, amended: a line is attributed to a method exactly when its
number n satisfies startLine ≤ n, n is below every startLine of a
method of the class that is strictly larger than the method's own, and
n < 99999999 (the sentinel used when no such later method exists); with
the concrete example of the claim: for methods at start lines
[10, 25, 25, 40] and lines 1..50, the method at 10 claims 10..24, each
method at 25 claims 25..39, and the method at 40 claims 40..50. -/
theorem c3_theorem :
    (∀ (m : JMethod) (ms : List JMethod) (ls : List JLine) (l : JLine),
      l ∈ method_lines m ms ls ↔
        l ∈ ls ∧ m.line ≤ l.nr ∧
        (∀ jm ∈ ms, m.line < jm.line → l.nr < jm.line) ∧
        ((∀ jm ∈ ms, jm.line ≤ m.line) → l.nr < 99999999)) ∧
    ((method_lines ⟨"m1", "a", 10, []⟩
        [⟨"m1", "a", 10, []⟩, ⟨"m2", "b", 25, []⟩, ⟨"m3", "c", 25, []⟩, ⟨"m4", "d", 40, []⟩]
        ((List.range 50).map (fun i => ⟨i + 1, 0, 0, 0⟩))).map (fun l => l.nr) =
      List.range' 10 15) ∧
    ((method_lines ⟨"m2", "b", 25, []⟩
        [⟨"m1", "a", 10, []⟩, ⟨"m2", "b", 25, []⟩, ⟨"m3", "c", 25, []⟩, ⟨"m4", "d", 40, []⟩]
        ((List.range 50).map (fun i => ⟨i + 1, 0, 0, 0⟩))).map (fun l => l.nr) =
      List.range' 25 15) ∧
    ((method_lines ⟨"m3", "c", 25, []⟩
        [⟨"m1", "a", 10, []⟩, ⟨"m2", "b", 25, []⟩, ⟨"m3", "c", 25, []⟩, ⟨"m4", "d", 40, []⟩]
        ((List.range 50).map (fun i => ⟨i + 1, 0, 0, 0⟩))).map (fun l => l.nr) =
      List.range' 25 15) ∧
    ((method_lines ⟨"m4", "d", 40, []⟩
        [⟨"m1", "a", 10, []⟩, ⟨"m2", "b", 25, []⟩, ⟨"m3", "c", 25, []⟩, ⟨"m4", "d", 40, []⟩]
        ((List.range 50).map (fun i => ⟨i + 1, 0, 0, 0⟩))).map (fun l => l.nr) =
      List.range' 40 11) :=
  ⟨mem_method_lines, by decide, by decide, by decide, by decide⟩

/-- C3, witness. -/
theorem c3_witness :
    (⟨12, 0, 0, 0⟩ : JLine) ∈ method_lines ⟨"m1", "a", 10, []⟩
      [⟨"m1", "a", 10, []⟩, ⟨"m2", "b", 25, []⟩] [⟨12, 0, 0, 0⟩] :=
  (c3_theorem.1 ⟨"m1", "a", 10, []⟩ [⟨"m1", "a", 10, []⟩, ⟨"m2", "b", 25, []⟩]
    [⟨12, 0, 0, 0⟩] ⟨12, 0, 0, 0⟩).mpr (by decide)

/-- C4, counterexample: two distinct methods sharing start line 25 both
claim the line numbered 30, so a source line can be attributed to two
methods of the same class. -/
theorem c4_counterexample :
    (⟨30, 0, 0, 0⟩ : JLine) ∈ method_lines ⟨"a", "x", 25, []⟩
      [⟨"a", "x", 25, []⟩, ⟨"b", "y", 25, []⟩] [⟨30, 0, 0, 0⟩] ∧
    (⟨30, 0, 0, 0⟩ : JLine) ∈ method_lines ⟨"b", "y", 25, []⟩
      [⟨"a", "x", 25, []⟩, ⟨"b", "y", 25, []⟩] [⟨30, 0, 0, 0⟩] ∧
    (⟨"a", "x", 25, []⟩ : JMethod) ≠ ⟨"b", "y", 25, []⟩ := by
  refine ⟨by decide, by decide, by decide⟩

/-- C4, amended: whenever two methods of the class have distinct start
lines, no line is attributed to both; the ranges only overlap for
methods sharing the same start line. -/
theorem c4_theorem : ∀ (ms : List JMethod) (ls : List JLine) (m₁ m₂ : JMethod),
    m₁ ∈ ms → m₂ ∈ ms → m₁.line ≠ m₂.line →
    ∀ l : JLine, ¬(l ∈ method_lines m₁ ms ls ∧ l ∈ method_lines m₂ ms ls) := by
  intro ms ls m₁ m₂ h₁ h₂ hne l ⟨hl₁, hl₂⟩
  rw [mem_method_lines] at hl₁ hl₂
  rcases lt_or_gt_of_ne hne with h | h
  · have hlt : l.nr < m₂.line := hl₁.2.2.1 m₂ h₂ h
    have hge : m₂.line ≤ l.nr := hl₂.2.1
    omega
  · have hlt : l.nr < m₁.line := hl₂.2.2.1 m₁ h₁ h
    have hge : m₁.line ≤ l.nr := hl₁.2.1
    omega

/-- C4, witness. -/
theorem c4_witness :
    ¬((⟨12, 0, 0, 0⟩ : JLine) ∈ method_lines ⟨"a", "x", 10, []⟩
        [⟨"a", "x", 10, []⟩, ⟨"b", "y", 25, []⟩] [⟨12, 0, 0, 0⟩] ∧
      (⟨12, 0, 0, 0⟩ : JLine) ∈ method_lines ⟨"b", "y", 25, []⟩
        [⟨"a", "x", 10, []⟩, ⟨"b", "y", 25, []⟩] [⟨12, 0, 0, 0⟩]) :=
  c4_theorem [⟨"a", "x", 10, []⟩, ⟨"b", "y", 25, []⟩] [⟨12, 0, 0, 0⟩]
    ⟨"a", "x", 10, []⟩ ⟨"b", "y", 25, []⟩ (by decide) (by decide) (by decide) ⟨12, 0, 0, 0⟩

/-! ### Claim C5 -/

/-- C5, counterexample: one package, one class, one method (start line
10), and N=1 source line (numbered 1) for the class file: the converted
class-level line list has 1 element but the method-level line list has
0, not N=1. -/
theorem c5_counterexample :
    (convert_class ⟨"Foo", [⟨"m", "()V", 10, []⟩], []⟩
        ⟨"p", [], [⟨"Foo.java", [⟨1, 0, 0, 0⟩]⟩], []⟩).map
      (fun c => (c.lines.length, c.methods.map (fun cm => cm.lines.length))) =
    some (1, [0]) := by
  decide

/-- C5, amended: for a class with exactly one method, a successful
conversion emits one class-level line element per line of the class
file (N of them), while the method-level list holds exactly the lines
with startLine ≤ n < 99999999 — a subset of the N lines, equal to it
only when every line number is in that range; the class-level line
numbers are a superset of the method-level ones. -/
theorem c5_theorem : ∀ (pkg : JPackage) (cls : JClass) (m : JMethod) (out : CClass),
    cls.methods = [m] →
    convert_class cls pkg = some out →
    out.lines.length = (find_lines pkg (guess_filename cls.name)).length ∧
    ∃ cm, out.methods = [cm] ∧
      cm.lines.length = ((find_lines pkg (guess_filename cls.name)).filter
        (fun l => decide (m.line ≤ l.nr) && decide (l.nr < 99999999))).length ∧
      (∀ n, n ∈ cm.lines.map (fun c => c.number) → n ∈ out.lines.map (fun c => c.number)) := by
  intro pkg cls m out hm hconv
  simp only [convert_class, hm, List.mapM_cons, List.mapM_nil, Option.pure_def,
    Option.bind_eq_bind, Option.bind_eq_some, Option.some.injEq] at hconv
  obtain ⟨ms0, ⟨cm0, hcm0, hms0⟩, rates, hrates, hout⟩ := hconv
  obtain ⟨a, ha, hcons⟩ := hms0
  subst hout
  subst ha
  have hml : method_lines m [m] (find_lines pkg (guess_filename cls.name)) =
      (find_lines pkg (guess_filename cls.name)).filter
        (fun l => decide (m.line ≤ l.nr) && decide (l.nr < 99999999)) := by
    simp [method_lines, line_is_after, pyMin]
  simp only [convert_method, Option.pure_def, Option.bind_eq_bind, Option.bind_eq_some,
    Option.some.injEq] at hcm0
  obtain ⟨r1, hr1, hcm0eq⟩ := hcm0
  refine ⟨by simp [convert_lines], cm0, by rw [← hcons], ?_, ?_⟩
  · rw [← hcm0eq, hml]
    simp [convert_lines]
  · intro n hn
    rw [← hcm0eq] at hn
    simp only [convert_lines, List.map_map, List.mem_map, Function.comp_def,
      convert_line_number] at hn ⊢
    obtain ⟨l, hl, rfl⟩ := hn
    rw [hml] at hl
    exact ⟨l, List.mem_of_mem_filter hl, rfl⟩

/-- C5, witness: a class whose single method starts at line 1 and whose
file has one line numbered 5; both lists have one element. -/
theorem c5_witness :
    (convert_class ⟨"Foo", [⟨"m", "()V", 1, []⟩], []⟩
        ⟨"p", [], [⟨"Foo.java", [⟨5, 0, 0, 0⟩]⟩], []⟩).map
      (fun c => (c.lines.length, c.methods.map (fun cm => cm.lines.length))) =
      some (1, [1]) ∧
    ∃ out, convert_class ⟨"Foo", [⟨"m", "()V", 1, []⟩], []⟩
        ⟨"p", [], [⟨"Foo.java", [⟨5, 0, 0, 0⟩]⟩], []⟩ = some out ∧
      out.lines.length = (find_lines ⟨"p", [], [⟨"Foo.java", [⟨5, 0, 0, 0⟩]⟩], []⟩
        (guess_filename "Foo")).length := by
  refine ⟨by decide, ?_⟩
  have hsome : ∃ out, convert_class ⟨"Foo", [⟨"m", "()V", 1, []⟩], []⟩
      ⟨"p", [], [⟨"Foo.java", [⟨5, 0, 0, 0⟩]⟩], []⟩ = some out := by
    rcases h : convert_class ⟨"Foo", [⟨"m", "()V", 1, []⟩], []⟩
        ⟨"p", [], [⟨"Foo.java", [⟨5, 0, 0, 0⟩]⟩], []⟩ with _ | out
    · exact absurd h (by decide)
    · exact ⟨out, rfl⟩
  obtain ⟨out, hout⟩ := hsome
  exact ⟨out, hout, (c5_theorem _ _ ⟨"m", "()V", 1, []⟩ out rfl hout).1⟩

/-! ### Claims C6 and C7 -/

/-- C6, counterexample: for a line with coveredBranches=29,
missedBranches=21 the emitted condition-coverage string is
"57% (29/50)", while floor(100*29/50) = 58: the percent is computed in
binary64 floats and can undershoot the exact floor. -/
theorem c6_counterexample :
    (convert_lines [⟨1, 0, 21, 29⟩]).map (fun c => c.condCov) = [some "57% (29/50)"] ∧
    (100 * 29) / 50 = 58 := by
  constructor
  · simp only [convert_lines, convert_line, List.map_cons, List.map_nil]
    rw [pct_29_21]
    decide
  · norm_num

/-- C6, amended: every converted line carries the line number, a hits
attribute of "1" exactly when covered instructions are positive, and,
when missedBranches+coveredBranches > 0, branch=true with a
condition-coverage string "<p>% (<cb>/<cb+mb>)" and exactly one
condition of type "jump" carrying "<p>%", where p is the truncation of
the binary64 computation of 100*(cb/(cb+mb)) (the pct function, which
can differ from the exact floor, e.g. 57 versus 58 at cb=29, mb=21);
when mb+cb=0 the line carries branch=false and no condition block.  In
particular cb=3, mb=1 yields "75% (3/4)". -/
theorem c6_theorem :
    (∀ (ls : List JLine) (jl : JLine), jl ∈ ls →
      ∃ cl, cl ∈ convert_lines ls ∧
        cl.number = jl.nr ∧
        cl.hits = (if 0 < jl.ci then "1" else "0") ∧
        (0 < jl.mb + jl.cb →
          cl.branch = true ∧
          cl.condCov = some (Nat.repr (pct jl.cb jl.mb) ++ "%" ++ " (" ++
            Nat.repr jl.cb ++ "/" ++ Nat.repr (jl.cb + jl.mb) ++ ")") ∧
          cl.conditions = [⟨"0", "jump", Nat.repr (pct jl.cb jl.mb) ++ "%"⟩]) ∧
        (jl.mb + jl.cb = 0 →
          cl.branch = false ∧ cl.condCov = none ∧ cl.conditions = [])) ∧
    pct 3 1 = 75 ∧
    (convert_lines [⟨7, 0, 1, 3⟩]).map (fun c => c.condCov) = [some "75% (3/4)"] := by
  refine ⟨?_, pct_3_1, ?_⟩
  · intro ls jl hmem
    refine ⟨convert_line jl, List.mem_map_of_mem _ hmem, convert_line_number jl, ?_, ?_, ?_⟩
    · rw [convert_line]
      split <;> rfl
    · intro hpos
      rw [convert_line, if_pos hpos]
      exact ⟨rfl, rfl, rfl⟩
    · intro hzero
      rw [convert_line, if_neg (by omega)]
      exact ⟨rfl, rfl, rfl⟩
  · simp only [convert_lines, convert_line, List.map_cons, List.map_nil]
    rw [pct_3_1]
    decide

/-- C6, witness. -/
theorem c6_witness :
    ∃ cl, cl ∈ convert_lines [(⟨5, 2, 0, 1⟩ : JLine)] ∧
      cl.number = (⟨5, 2, 0, 1⟩ : JLine).nr ∧
      cl.hits = (if 0 < (⟨5, 2, 0, 1⟩ : JLine).ci then "1" else "0") ∧
      (0 < (⟨5, 2, 0, 1⟩ : JLine).mb + (⟨5, 2, 0, 1⟩ : JLine).cb →
        cl.branch = true ∧
        cl.condCov = some (Nat.repr (pct (⟨5, 2, 0, 1⟩ : JLine).cb (⟨5, 2, 0, 1⟩ : JLine).mb) ++
          "%" ++ " (" ++ Nat.repr (⟨5, 2, 0, 1⟩ : JLine).cb ++ "/" ++
          Nat.repr ((⟨5, 2, 0, 1⟩ : JLine).cb + (⟨5, 2, 0, 1⟩ : JLine).mb) ++ ")") ∧
        cl.conditions = [⟨"0", "jump",
          Nat.repr (pct (⟨5, 2, 0, 1⟩ : JLine).cb (⟨5, 2, 0, 1⟩ : JLine).mb) ++ "%"⟩]) ∧
      ((⟨5, 2, 0, 1⟩ : JLine).mb + (⟨5, 2, 0, 1⟩ : JLine).cb = 0 →
        cl.branch = false ∧ cl.condCov = none ∧ cl.conditions = []) :=
  c6_theorem.1 [⟨5, 2, 0, 1⟩] ⟨5, 2, 0, 1⟩ (List.mem_singleton.mpr rfl)

/-- C7, counterexample: with session-info start 1500 ms the emitted
timestamp is 1.5 (a fractional value, Python 3 true division), not the
truncated integer 1500/1000 = 1. -/
theorem c7_counterexample :
    (convert_root ⟨1500, [], []⟩ []).map (fun c => c.timestamp) = some (3 / 2) ∧
    ((3 : ℚ) / 2) ≠ ((1500 / 1000 : ℕ) : ℚ) := by
  constructor
  · have h1500 : floatRound ((1500 : ℚ) / 1000) = 3 / 2 := by
      rw [show ((1500 : ℚ) / 1000) = 3 / 2 by norm_num]
      exact floatRound_3_2
    simp [convert_root, add_counters, counter, h1500, List.mapM_nil, List.mapM.loop]
  · norm_num

/-- C7, amended: the emitted timestamp is the binary64 value of the true
division s/1000 — fractional in general, not truncated; when s is a
multiple of 1000 (with quotient below 2^53) it equals the exact integer
s/1000. -/
theorem c7_theorem : ∀ (r : JReport) (roots : List String) (c : CCoverage),
    convert_root r roots = some c →
    c.timestamp = floatRound ((r.sessioninfoStart : ℚ) / 1000) ∧
    (∀ n : ℕ, r.sessioninfoStart = 1000 * n → n < 2 ^ 53 → c.timestamp = (n : ℚ)) := by
  intro r roots c hconv
  simp only [convert_root, Option.pure_def, Option.bind_eq_bind, Option.bind_eq_some,
    Option.some.injEq] at hconv
  obtain ⟨pkgs, hpkgs, rates, hrates, hout⟩ := hconv
  subst hout
  refine ⟨rfl, ?_⟩
  intro n hn hlt
  rw [hn]
  rw [show (((1000 * n : ℕ) : ℚ) / 1000) = (n : ℚ) by push_cast; ring]
  exact floatRound_natCast n hlt

/-- C7, witness. -/
theorem c7_witness :
    ∃ c, convert_root ⟨2000, [], []⟩ [] = some c ∧ c.timestamp = ((2 : ℕ) : ℚ) := by
  rcases h : convert_root ⟨2000, [], []⟩ [] with _ | c
  · exact absurd h (by simp [convert_root, add_counters, counter, List.mapM_nil, List.mapM.loop])
  · exact ⟨c, rfl, (c7_theorem ⟨2000, [], []⟩ [] c h).2 2 rfl (by norm_num)⟩

/-! ### Claims C8 to C10 -/

/-- The largest double below 0.8, times 100: the exact product is just
below 80, but its binary64 rounding is exactly 80. -/
lemma floatRound_just_below_80 :
    floatRound ((7205759403792793 : ℚ) / 9007199254740992 * 100) = 80 := by
  rw [show ((7205759403792793 : ℚ) / 9007199254740992 * 100) =
    180143985094819825 / 2251799813685248 by norm_num]
  rw [floatRound, if_neg (by norm_num), if_neg (by norm_num)]
  have hk : floorLog2 ((180143985094819825 : ℚ) / 2251799813685248) = 6 := by
    rw [floorLog2]
    rw [if_pos (by norm_num)]
    rw [show ⌊(180143985094819825 : ℚ) / 2251799813685248⌋ = 79 by norm_num]
    rw [show (Int.toNat 79) = 79 from rfl]
    rw [show natLog2 79 = 6 from by decide]
    norm_num
  simp only [floatRoundPos, hk]
  rw [show max (6 - 52 : ℤ) (-1074) = -46 by norm_num]
  rw [show ((180143985094819825 : ℚ) / 2251799813685248) * 2 ^ (-(-46) : ℤ) =
    180143985094819825 / 32 by norm_num]
  rw [show roundHalfEven ((180143985094819825 : ℚ) / 32) = 5629499534213120 from by
    rw [roundHalfEven]
    rw [show ⌊(180143985094819825 : ℚ) / 32⌋ = 5629499534213119 by norm_num]
    norm_num]
  norm_num

/-- C8, counterexample: the double just below 0.8 as line rate (branch
rate 1) with threshold 80: the exact product line_rate*100 is strictly
below 80, so the claim says the file is warned, but the float product
rounds to exactly 80.0 and the program does not warn. -/
theorem c8_counterexample :
    (⟨"a.java", 7205759403792793 / 9007199254740992, 1, "x"⟩ : FileCoverage) ∉
      low_coverage [⟨"a.java", 7205759403792793 / 9007199254740992, 1, "x"⟩] 80 ∧
    (7205759403792793 : ℚ) / 9007199254740992 * 100 < 80 := by
  constructor
  · intro hmem
    simp only [low_coverage, List.mem_filter, Bool.or_eq_true, decide_eq_true_eq] at hmem
    rcases hmem.2 with h | h
    · rw [floatRound_just_below_80] at h
      exact absurd h (by norm_num)
    · rw [show ((1 : ℚ) * 100) = 100 by norm_num] at h
      rw [show floatRound (100 : ℚ) = 100 from by
        exact_mod_cast floatRound_natCast 100 (by norm_num)] at h
      exact absurd h (by norm_num)
  · norm_num

/-- C8, amended: a file is warned exactly when the binary64 product of
its line rate (or branch rate) with 100 is strictly below the
threshold; this coincides with the exact comparison whenever that
product is representable, but not in general (the double just below 0.8
is not warned at threshold 80).  Every warned file is listed with both
of its rates; with threshold 80, a file at line rate 0.79 and branch
rate 0.90 is warned, and a file at exactly 0.80 (branch 0.85) is not. -/
theorem c8_theorem :
    (∀ (data : List FileCoverage) (t : ℚ) (d : FileCoverage),
      d ∈ low_coverage data t ↔
        d ∈ data ∧
          (floatRound (d.line_rate * 100) < t ∨ floatRound (d.branch_rate * 100) < t)) ∧
    (∀ (data : List FileCoverage) (t : ℚ) (d : FileCoverage),
      d ∈ low_coverage data t →
        (d.file, d.line_rate, d.branch_rate) ∈ warning_entries data t) ∧
    (⟨"a.java", 79 / 100, 9 / 10, "x"⟩ : FileCoverage) ∈
      low_coverage [⟨"a.java", 79 / 100, 9 / 10, "x"⟩] 80 ∧
    (⟨"b.java", 8 / 10, 85 / 100, "x"⟩ : FileCoverage) ∉
      low_coverage [⟨"b.java", 8 / 10, 85 / 100, "x"⟩] 80 := by
  have hfr : ∀ n : ℕ, n < 2 ^ 53 → floatRound ((n : ℚ)) = (n : ℚ) := floatRound_natCast
  have hmem : ∀ (data : List FileCoverage) (t : ℚ) (d : FileCoverage),
      d ∈ low_coverage data t ↔
        d ∈ data ∧
          (floatRound (d.line_rate * 100) < t ∨ floatRound (d.branch_rate * 100) < t) := by
    intro data t d
    simp [low_coverage, List.mem_filter]
  refine ⟨hmem, ?_, ?_, ?_⟩
  · intro data t d hd
    exact List.mem_map_of_mem _ hd
  · rw [hmem]
    refine ⟨by simp, Or.inl ?_⟩
    rw [show ((79 : ℚ) / 100 * 100) = ((79 : ℕ) : ℚ) by norm_num, hfr 79 (by norm_num)]
    norm_num
  · rw [hmem]
    rintro ⟨-, h | h⟩
    · rw [show ((8 : ℚ) / 10 * 100) = ((80 : ℕ) : ℚ) by norm_num, hfr 80 (by norm_num)] at h
      exact absurd h (by norm_num)
    · rw [show ((85 : ℚ) / 100 * 100) = ((85 : ℕ) : ℚ) by norm_num, hfr 85 (by norm_num)] at h
      exact absurd h (by norm_num)

/-- C8, witness. -/
theorem c8_witness :
    ("a.java", (79 : ℚ) / 100, (9 : ℚ) / 10) ∈
      warning_entries [⟨"a.java", 79 / 100, 9 / 10, "x"⟩] 80 :=
  c8_theorem.2.1 [⟨"a.java", 79 / 100, 9 / 10, "x"⟩] 80
    ⟨"a.java", 79 / 100, 9 / 10, "x"⟩ c8_theorem.2.2.1

/-- C9: a failing per-file coverage lookup is non-fatal: the failing
file contributes no row, a warning naming it is printed to the error
stream in position, and the rows are exactly those of the list with the
failing file removed — every other file is processed unchanged. -/
theorem c9_theorem : ∀ (roots : List String) (lookup : String → Except String (ℚ × ℚ))
    (dir : String) (xs ys : List String) (fp rel msg : String),
    relative_path_of roots fp = some rel → rel ≠ "" → lookup rel = .error msg →
    process_files roots lookup dir (xs ++ fp :: ys) =
      ((process_files roots lookup dir (xs ++ ys)).1,
       (process_files roots lookup dir xs).2 ++
         ("Warning: Could not get coverage for " ++ fp ++ ": " ++ msg) ::
           (process_files roots lookup dir ys).2) := by
  intro roots lookup dir xs ys fp rel msg hrel hne hmsg
  have hmid : process_files roots lookup dir (fp :: ys) =
      ((process_files roots lookup dir ys).1,
       ("Warning: Could not get coverage for " ++ fp ++ ": " ++ msg) ::
         (process_files roots lookup dir ys).2) := by
    simp [process_files, hrel, hne, hmsg]
  rw [process_files_append roots lookup dir xs (fp :: ys),
    process_files_append roots lookup dir xs ys, hmid]

/-- C9, witness: with source root "s", a lookup that fails on "A.java"
and succeeds elsewhere, the file list ["s/B.java", "s/A.java",
"s/C.java"] yields rows for B and C only plus one warning for A. -/
theorem c9_witness :
    process_files ["s"] (fun r => if r = "A.java" then .error "boom" else .ok (1, 1)) "d"
        (["s/B.java"] ++ "s/A.java" :: ["s/C.java"]) =
      ((process_files ["s"] (fun r => if r = "A.java" then .error "boom" else .ok (1, 1)) "d"
          (["s/B.java"] ++ ["s/C.java"])).1,
       (process_files ["s"] (fun r => if r = "A.java" then .error "boom" else .ok (1, 1)) "d"
          ["s/B.java"]).2 ++
         ("Warning: Could not get coverage for " ++ "s/A.java" ++ ": " ++ "boom") ::
           (process_files ["s"] (fun r => if r = "A.java" then .error "boom" else .ok (1, 1)) "d"
              ["s/C.java"]).2) :=
  c9_theorem ["s"] (fun r => if r = "A.java" then .error "boom" else .ok (1, 1)) "d"
    ["s/B.java"] ["s/C.java"] "s/A.java" "A.java" "boom" (by decide) (by decide) rfl

/-- C10: the source-root match is a plain string-prefix test applied to
the configured roots in their given order: the root "src/main/java"
matches the changed file "src/main/javascript/App.java" across a
path-component boundary, with relative path "script/App.java"; in
general a matching head root gives the remainder with all leading
slashes stripped, and a non-matching head root falls through to the
remaining roots in order (so a file matching only a later root is
matched there, e.g. roots ["lib", "src"] with file "src/App.java");
and a changed file path equal to the root yields an empty relative path
and is skipped — it produces neither a row nor a warning. -/
theorem c10_theorem :
    relative_path_of ["src/main/java"] "src/main/javascript/App.java" =
      some "script/App.java" ∧
    (∀ (root : String) (rest : List String) (fp : String),
      root.data.isPrefixOf fp.data = true →
      relative_path_of (root :: rest) fp =
        some ⟨(fp.data.drop root.data.length).dropWhile (fun c => c = '/')⟩) ∧
    (∀ (root : String) (rest : List String) (fp : String),
      root.data.isPrefixOf fp.data = false →
      relative_path_of (root :: rest) fp = relative_path_of rest fp) ∧
    relative_path_of ["lib", "src"] "src/App.java" = some "App.java" ∧
    (∀ (root dir : String) (lookup : String → Except String (ℚ × ℚ)),
      process_files [root] lookup dir [root] = ([], [])) := by
  refine ⟨by decide, ?_, ?_, by decide, ?_⟩
  · intro root rest fp hpre
    simp [relative_path_of, List.find?_cons_of_pos, hpre]
  · intro root rest fp hpre
    simp [relative_path_of, List.find?_cons_of_neg, hpre]
  · intro root dir lookup
    have hpre : root.data.isPrefixOf root.data = true := by
      simp [List.isPrefixOf_iff_prefix]
    have hfind : List.find? (fun r => r.data.isPrefixOf root.data) [root] = some root :=
      List.find?_cons_of_pos _ hpre
    have hrel : relative_path_of [root] root = some "" := by
      simp only [relative_path_of]
      rw [hfind, Option.map_some']
      congr 1
      rw [List.drop_length, List.dropWhile_nil]
    simp [process_files, hrel]

/-- C10, witness. -/
theorem c10_witness :
    relative_path_of ["src/main/java", "other"] "src/main/java//x/App.java" =
      some ⟨(("src/main/java//x/App.java").data.drop ("src/main/java").data.length).dropWhile
        (fun c => c = '/')⟩ ∧
    relative_path_of ["lib", "src"] "src/App.java" = relative_path_of ["src"] "src/App.java" ∧
    process_files ["src/main/java"] (fun _ => .error "e") "d" ["src/main/java"] = ([], []) :=
  ⟨c10_theorem.2.1 "src/main/java" ["other"] "src/main/java//x/App.java" (by decide),
   c10_theorem.2.2.1 "lib" ["src"] "src/App.java" (by decide),
   c10_theorem.2.2.2.2 "src/main/java" "d" (fun _ => .error "e")⟩

end JacocoReport
